import Mathlib

/-!
Formal model of the river label placement engine in app.py.

The engine rasterizes a polygon onto an occupancy grid whose origin is the
bounding box minimum, computes an exact Euclidean distance transform of the
grid, extracts placement candidates (geometric centroid, the grid cell of
maximal distance, and a weighted interior centroid over cells above the
50th percentile of positive distances), checks whether the label text fits,
and selects a winner among the three strategies by maximal clearance.

Modelling conventions:
- Python floats are modelled as exact rationals; every numeric value the
  program stores is a rational here.
- Distance values, which the program obtains as square roots (from
  scipy distance_transform_edt and from shapely distance), are represented
  by their squares, which are rational.  Real.sqrt is applied in theorem
  statements, so the theorems speak about the actual distances.  All
  comparisons the program performs on distances are reflected through
  strict monotonicity of the square root on nonnegative arguments, proved
  in bridge lemmas below.
- The point-in-polygon test of matplotlib Path.contains_points is modelled
  as the classical even-odd crossing rule on the closed ring, with the
  crossing condition written exactly as the standard half-open ray casting
  test.  Boundary-touching sample points follow that documented convention.
- Exceptions are modelled by explicit result constructors: a raised
  constructor models a Python exception propagating out of a call, while
  an err constructor models a structured error value returned normally.
- The image rendering fields (base64 visualizations) are pure consumers of
  the numeric results and are omitted; likewise the HTTP and JSON layers
  are modelled only by the argument normalization and validation they
  perform before invoking the core.
-/

set_option maxRecDepth 100000

/-- A 2D point with exact rational coordinates. -/
abbrev Pt : Type := ℚ × ℚ

/-- Edges of the closed ring: consecutive vertex pairs plus the wrap-around
edge from the last vertex back to the first.  This matches shapely, which
closes a polygon ring implicitly; if the input already repeats its first
point the extra degenerate edge has no effect on any test below. -/
def ringEdges (ring : List Pt) : List (Pt × Pt) := ring.zip (ring.rotate 1)

/-- One edge of the even-odd crossing test: the horizontal ray from p to the
right crosses the open-below, closed-above span of edge ab.  This is the
standard ray casting formula used by matplotlib-style containment tests. -/
def edgeCrosses (p a b : Pt) : Bool :=
  (decide (p.2 < a.2) != decide (p.2 < b.2)) &&
    decide (p.1 < (b.1 - a.1) * (p.2 - a.2) / (b.2 - a.2) + a.1)

/-- Even-odd point-in-polygon test over the closed ring. -/
def containsPoint (ring : List Pt) (p : Pt) : Bool :=
  (ringEdges ring).countP (fun e => edgeCrosses p e.1 e.2) % 2 == 1

/-- Membership of a point on the closed segment from a to b. -/
def onSegment (p a b : Pt) : Bool :=
  decide ((b.1 - a.1) * (p.2 - a.2) = (b.2 - a.2) * (p.1 - a.1)) &&
  decide (min a.1 b.1 ≤ p.1) && decide (p.1 ≤ max a.1 b.1) &&
  decide (min a.2 b.2 ≤ p.2) && decide (p.2 ≤ max a.2 b.2)

/-- Membership of a point on the polygon boundary ring. -/
def onBoundaryB (ring : List Pt) (p : Pt) : Bool :=
  (ringEdges ring).any (fun e => onSegment p e.1 e.2)

/-- The point p lies strictly inside the polygon: the even-odd test counts it
as interior and it does not touch the boundary ring. -/
def strictlyInside (ring : List Pt) (p : Pt) : Prop :=
  containsPoint ring p = true ∧ onBoundaryB ring p = false

/-- The point p lies strictly outside the polygon. -/
def strictlyOutside (ring : List Pt) (p : Pt) : Prop :=
  containsPoint ring p = false ∧ onBoundaryB ring p = false

/-- Squared distance from point p to the closed segment from a to b,
computed exactly via the clamped orthogonal projection. -/
def sqDistPtSeg (p a b : Pt) : ℚ :=
  let dx := b.1 - a.1
  let dy := b.2 - a.2
  let dd := dx ^ 2 + dy ^ 2
  if dd = 0 then (p.1 - a.1) ^ 2 + (p.2 - a.2) ^ 2
  else
    let t := max 0 (min 1 (((p.1 - a.1) * dx + (p.2 - a.2) * dy) / dd))
    (p.1 - (a.1 + t * dx)) ^ 2 + (p.2 - (a.2 + t * dy)) ^ 2

/-- Squared distance from a point to the polygon boundary ring: the minimum
over all ring edges.  This models shapely polygon.boundary.distance, whose
value is the square root of this quantity. -/
def distSqToBoundary (ring : List Pt) (p : Pt) : ℚ :=
  match ringEdges ring with
  | [] => 0
  | e :: es => es.foldl (fun m f => min m (sqDistPtSeg p f.1 f.2)) (sqDistPtSeg p e.1 e.2)

/-- Twice the signed area of the ring (shoelace sum). -/
def twiceArea (ring : List Pt) : ℚ :=
  ((ringEdges ring).map (fun e => e.1.1 * e.2.2 - e.2.1 * e.1.2)).sum

/-- Area centroid of the polygon by the standard shoelace centroid formula,
modelling shapely polygon.centroid for a polygon of nonzero area. -/
def centroid (ring : List Pt) : Pt :=
  let a := twiceArea ring
  (((ringEdges ring).map (fun e => (e.1.1 + e.2.1) * (e.1.1 * e.2.2 - e.2.1 * e.1.2))).sum
      / (3 * a),
   ((ringEdges ring).map (fun e => (e.1.2 + e.2.2) * (e.1.1 * e.2.2 - e.2.1 * e.1.2))).sum
      / (3 * a))

/-- Minimum x coordinate of the ring (first component of shapely bounds). -/
def minX : List Pt → ℚ
  | [] => 0
  | p :: ps => ps.foldl (fun m q => min m q.1) p.1

/-- Minimum y coordinate of the ring. -/
def minY : List Pt → ℚ
  | [] => 0
  | p :: ps => ps.foldl (fun m q => min m q.2) p.2

/-- Maximum x coordinate of the ring. -/
def maxX : List Pt → ℚ
  | [] => 0
  | p :: ps => ps.foldl (fun m q => max m q.1) p.1

/-- Maximum y coordinate of the ring. -/
def maxY : List Pt → ℚ
  | [] => 0
  | p :: ps => ps.foldl (fun m q => max m q.2) p.2

/-- Python int() conversion of a rational: truncation toward zero. -/
def ratTrunc (q : ℚ) : ℤ := q.num.tdiv q.den

/-- Grid width used by the engine: int(maxx - minx) + 20. -/
def gridW (ring : List Pt) : ℕ := (ratTrunc (maxX ring - minX ring) + 20).toNat

/-- Grid height used by the engine: int(maxy - miny) + 20. -/
def gridH (ring : List Pt) : ℕ := (ratTrunc (maxY ring - minY ring) + 20).toNat

/-- Translation of every ring vertex by the negated offset, as performed by
polygon_to_raster before the containment test. -/
def translateRing (ring : List Pt) (ox oy : ℚ) : List Pt :=
  ring.map (fun p => (p.1 - ox, p.2 - oy))

/-- One cell of the occupancy grid: the containment test of grid point
(c, r) against the ring translated by the bounding box minimum. -/
def rasterCell (ring : List Pt) (r c : ℕ) : Bool :=
  containsPoint (translateRing ring (minX ring) (minY ring)) ((c : ℚ), (r : ℚ))

/-- All grid cells (row, col) in row-major order, matching the memory order
of a numpy array of shape (h, w). -/
def cellList (h w : ℕ) : List (ℕ × ℕ) :=
  (List.range h).flatMap (fun r => (List.range w).map (fun c => (r, c)))

/-- Squared Euclidean distance between two grid cells. -/
def sqCellDist (a b : ℕ × ℕ) : ℕ :=
  (((a.1 : ℤ) - b.1) ^ 2 + ((a.2 : ℤ) - b.2) ^ 2).toNat

/-- Running minimum of squared distances from cell rc to the cells of a
list, the loop form of a min fold. -/
def minSqAux (rc : ℕ × ℕ) : List (ℕ × ℕ) → ℕ → ℕ
  | [], acc => acc
  | g :: gs, acc =>
    if sqCellDist rc g < acc then minSqAux rc gs (sqCellDist rc g) else minSqAux rc gs acc

/-- Minimum squared distance from cell rc to any cell in the list fc.
With the 20 cell margin the engine always has exterior cells, so the empty
case is unreachable in context; it is defined as 0. -/
def minSqDistTo (fc : List (ℕ × ℕ)) (rc : ℕ × ℕ) : ℕ :=
  match fc with
  | [] => 0
  | f :: fs => minSqAux rc fs (sqCellDist rc f)

/-- Squared exact Euclidean distance transform of a binary grid, the model
of scipy distance_transform_edt: every true cell holds the squared distance
to the nearest false cell, every false cell holds 0. -/
def distFieldAux (isIn : ℕ × ℕ → Bool) (h w : ℕ) : List (List ℕ) :=
  let fc := (cellList h w).filter (fun rc => !isIn rc)
  (List.range h).map (fun r =>
    (List.range w).map (fun c => if isIn (r, c) then minSqDistTo fc (r, c) else 0))

/-- The squared distance field the engine computes for a polygon. -/
def distFieldOf (ring : List Pt) : List (List ℕ) :=
  distFieldAux (fun rc => rasterCell ring rc.1 rc.2) (gridH ring) (gridW ring)

/-- The distance field flattened in row-major order, as numpy argmax sees it. -/
def flatField (ring : List Pt) : List ℕ := (distFieldOf ring).flatten

/-- Lookup of a distance field entry at cell rc. -/
def dfAt (df : List (List ℕ)) (rc : ℕ × ℕ) : ℕ := (df.getD rc.1 []).getD rc.2 0

/-- Scan step of numpy argmax: keep the current best unless a strictly
greater value appears, so the first occurrence of the maximum wins. -/
def argmaxP : List ℕ → ℕ × ℕ → ℕ → ℕ × ℕ
  | [], st, _ => st
  | v :: vs, st, i => argmaxP vs (if st.2 < v then (i, v) else st) (i + 1)

/-- numpy argmax over a flattened array: index and value of the first
occurrence of the maximum (1 is the index of the first scanned tail cell). -/
def argmaxFlat : List ℕ → ℕ × ℕ
  | [] => (0, 0)
  | v :: vs => argmaxP vs (0, v) 1

/-- numpy max over a flattened array of nonnegative values. -/
def listMaxN (l : List ℕ) : ℕ := l.foldl max 0

/-- The fit check of the engine on squared distances: fitsCheck s q decides
whether 2 * sqrt s is at least q, exactly. -/
def fitsCheck (s : ℕ) (q : ℚ) : Bool :=
  decide (q ≤ 0) || decide (q ^ 2 ≤ 4 * (s : ℚ))

/-- Estimated text width: len(text) * font_size * 0.6. -/
def textWidthOf (t : String) (fs : ℤ) : ℚ := (t.length : ℚ) * (fs : ℚ) * (3 / 5)

/-- Result record of find_widest_point.  max_width in the source equals
2 * sqrt maxDistSq and improvement equals sqrt improvementSq; both square
roots are taken exactly here via the squared representation. -/
structure FWPResult where
  optimal_x : ℚ
  optimal_y : ℚ
  naive_x : ℚ
  naive_y : ℚ
  fits_inside : Bool
  maxDistSq : ℕ
  improvementSq : ℚ
deriving DecidableEq

/-- Model of RiverLabeler.find_widest_point: rasterize, distance transform,
argmax in row-major order, map the cell back by adding the bounding box
minimum, compare with the centroid and perform the fit check. -/
def find_widest_point (padding : ℚ) (ring : List Pt) (textWidth textHeight : ℚ) : FWPResult :=
  let mnx := minX ring
  let mny := minY ring
  let flat := flatField ring
  let w := gridW ring
  let maxSq := listMaxN flat
  let idx := (argmaxFlat flat).1
  let ox : ℚ := ((idx % w : ℕ) : ℚ) + mnx
  let oy : ℚ := ((idx / w : ℕ) : ℚ) + mny
  let c := centroid ring
  { optimal_x := ox
    optimal_y := oy
    naive_x := c.1
    naive_y := c.2
    fits_inside := fitsCheck maxSq (max textWidth textHeight + padding)
    maxDistSq := maxSq
    improvementSq := (ox - c.1) ^ 2 + (oy - c.2) ^ 2 }

/-- The stateless helper object; its only field is the padding constant. -/
structure RiverLabeler where
  padding : ℚ
deriving DecidableEq

/-- The labeler instantiated at process start, with padding 5. -/
def defaultLabeler : RiverLabeler := ⟨5⟩

/-- Successful place_label payload: the core result plus the echoed inputs. -/
structure PlaceOk where
  core : FWPResult
  text : String
  font_size : ℤ
  polygon_coords : List Pt
deriving DecidableEq

/-- Outcome of place_label: either the structured error dictionary or the
result dictionary. -/
inductive LabelResponse where
  | err : String → LabelResponse
  | ok : PlaceOk → LabelResponse
deriving DecidableEq

/-- Model of RiverLabeler.place_label.  The method reads the padding from
the object and never mutates it; the unchanged object is returned alongside
the result to make statelessness explicit. -/
def place_label (L : RiverLabeler) (coords : List Pt) (label_text : String) (font_size : ℤ) :
    LabelResponse × RiverLabeler :=
  if coords.length < 3 then (.err ("Need at least 3 points"), L)
  else
    (.ok ⟨find_widest_point L.padding coords (textWidthOf label_text font_size) (font_size : ℚ),
          label_text, font_size, coords⟩, L)

/-- Insertion of a value into a sorted list of naturals. -/
def insertSorted (x : ℕ) : List ℕ → List ℕ
  | [] => [x]
  | y :: ys => if x ≤ y then x :: y :: ys else y :: insertSorted x ys

/-- Insertion sort, the sorted order numpy percentile computes with. -/
def sortN (l : List ℕ) : List ℕ := l.foldr insertSorted []

/-- The positive entries of the distance field in row-major order, the model
of distances[distances > 0] on squared values. -/
def interiorVals (ring : List Pt) : List ℕ :=
  (flatField ring).filter (fun v => decide (0 < v))

/-- The two middle entries of the sorted list: numpy percentile at 50 with
linear interpolation returns the average of the square roots of these two
squared values (they coincide when the length is odd). -/
def percentile50Sq (l : List ℕ) : ℕ × ℕ :=
  let s := sortN l
  let n := s.length
  if n % 2 = 1 then (s.getD (n / 2) 0, s.getD (n / 2) 0)
  else (s.getD (n / 2 - 1) 0, s.getD (n / 2) 0)

/-- Exact decision of sqrt a + sqrt b < 2 * sqrt s on naturals, the
comparison distance > threshold of the weighted strategy, where the
threshold is the 50th percentile (sqrt a + sqrt b) / 2. -/
def gtHalfSumSqrt (s a b : ℕ) : Bool :=
  decide ((a : ℤ) + b < 4 * s) && decide (4 * ((a : ℤ) * b) < (4 * (s : ℤ) - a - b) ^ 2)

/-- Cells selected by the weighted strategy: all cells whose distance
strictly exceeds the 50th percentile of the positive distances, in the
row-major order of numpy argwhere; empty when there are no positive
distances. -/
def goodCellsAux (df : List (List ℕ)) (h w : ℕ) : List (ℕ × ℕ) :=
  let vals := df.flatten.filter (fun v => decide (0 < v))
  if 0 < vals.length then
    let ab := percentile50Sq vals
    (cellList h w).filter (fun rc => gtHalfSumSqrt (dfAt df rc) ab.1 ab.2)
  else []

/-- The good cells of the weighted strategy for a polygon. -/
def goodCells (ring : List Pt) : List (ℕ × ℕ) :=
  goodCellsAux (distFieldOf ring) (gridH ring) (gridW ring)

/-- The point output by the weighted strategy: the mean of the good cell
positions mapped to world coordinates, or the centroid coordinates when the
selection is empty. -/
def weightedPoint (ring : List Pt) : Pt :=
  let gp := goodCells ring
  if 0 < gp.length then
    ((gp.map (fun rc => (rc.2 : ℚ))).sum / (gp.length : ℚ) + minX ring,
     (gp.map (fun rc => (rc.1 : ℚ))).sum / (gp.length : ℚ) + minY ring)
  else centroid ring

/-- One named candidate of the comparison; distance_to_edge in the source
equals sqrt distSqToEdge. -/
structure Candidate where
  name : String
  x : ℚ
  y : ℚ
  distSqToEdge : ℚ
  method : String
deriving DecidableEq

/-- Successful comparison payload (the comparison_image field, a pure
rendering of these numbers, is omitted). -/
structure CompareOk where
  text : String
  font_size : ℤ
  polygon_coords : List Pt
  centroid : Candidate
  distance_transform : Candidate
  weighted : Candidate
  winner : String
deriving DecidableEq

/-- Outcome of the core compare_algorithms method: raised models a Python
exception escaping the method (the method performs no validation itself,
so the shapely polygon constructor raises on fewer than 3 points). -/
inductive CompareResponse where
  | raised : String → CompareResponse
  | ok : CompareOk → CompareResponse
deriving DecidableEq

/-- Python max over the keys centroid, distance_transform, weighted with
the distance as key: the first key attaining the maximum wins. -/
def winnerOf (dc dd dw : ℚ) : String :=
  let s1 := if dc < dd then ("distance_transform") else ("centroid")
  let d1 := if dc < dd then dd else dc
  if d1 < dw then ("weighted") else s1

/-- The comparison record MultiAlgorithmLabeler.compare_algorithms builds
for at least 3 coordinates. -/
def compareOk (coords : List Pt) (label_text : String) (font_size : ℤ) : CompareOk :=
  let c := centroid coords
  let centroidCand : Candidate :=
    ⟨("Centroid (Naive)"), c.1, c.2, distSqToBoundary coords c, ("Geometric center only")⟩
  let dt := find_widest_point 5 coords (textWidthOf label_text font_size) (font_size : ℚ)
  let dtCand : Candidate :=
    ⟨("Distance Transform (Ours)"), dt.optimal_x, dt.optimal_y, (dt.maxDistSq : ℚ),
      ("Maximum distance from all edges")⟩
  let wp := weightedPoint coords
  let wCand : Candidate :=
    ⟨("Weighted Centroid"), wp.1, wp.2, distSqToBoundary coords wp,
      ("Average of safe interior points")⟩
  { text := label_text
    font_size := font_size
    polygon_coords := coords
    centroid := centroidCand
    distance_transform := dtCand
    weighted := wCand
    winner := winnerOf centroidCand.distSqToEdge dtCand.distSqToEdge wCand.distSqToEdge }

/-- Model of the core method MultiAlgorithmLabeler.compare_algorithms.  The
method itself performs no vertex-count validation: with fewer than 3
points the shapely Polygon constructor on its first line raises, which the
raised constructor records. -/
def compare_algorithms (coords : List Pt) (label_text : String) (font_size : ℤ) :
    CompareResponse :=
  if coords.length < 3 then .raised ("A polygon requires at least 3 coordinate pairs")
  else .ok (compareOk coords label_text font_size)

/-- Outcome of the compare-algorithms HTTP endpoint: a JSON error with its
status code, or the JSON of the comparison record. -/
inductive ApiResponse where
  | errJson : String → ℕ → ApiResponse
  | okJson : CompareOk → ApiResponse
deriving DecidableEq

/-- Model of the route compare_algorithms_api: empty-coordinate check, label
text defaulting, font size clamping to 1..200 (out of range becomes 24),
then the vertex-count validation, and only then the call into the core.
The except handler of the route turns a raised exception into a JSON error
with status 400. -/
def compare_algorithms_api (coords : List Pt) (label_text : String) (font_size : ℤ) :
    ApiResponse :=
  if coords.length = 0 then .errJson ("No coordinates provided.") 400
  else
    let t := if label_text.trim = ("") then ("RIVER") else label_text.trim
    let fs := if font_size < 1 ∨ 200 < font_size then 24 else font_size
    if coords.length < 3 then
      .errJson ("Need at least 3 points to form a river polygon.") 400
    else
      match compare_algorithms coords t fs with
      | .raised msg => .errJson msg 400
      | .ok r => .okJson r

/-- Folding min over a list never exceeds the initial value. -/
lemma foldl_min_le (f : Pt → ℚ) : ∀ (ps : List Pt) (z : ℚ),
    ps.foldl (fun m q => min m (f q)) z ≤ z
  | [], _ => le_refl _
  | p :: ps, z => le_trans (foldl_min_le f ps (min z (f p))) (min_le_left _ _)

/-- Folding max over a list is at least the initial value. -/
lemma le_foldl_max (f : Pt → ℚ) : ∀ (ps : List Pt) (z : ℚ),
    z ≤ ps.foldl (fun m q => max m (f q)) z
  | [], _ => le_refl _
  | p :: ps, z => le_trans (le_max_left _ _) (le_foldl_max f ps (max z (f p)))

/-- The horizontal extent of a nonempty ring is nonnegative. -/
lemma bbox_x_nonneg (ring : List Pt) (h : ring ≠ []) : 0 ≤ maxX ring - minX ring := by
  match ring, h with
  | p :: ps, _ =>
    have h1 : minX (p :: ps) ≤ p.1 := foldl_min_le (fun q => q.1) ps p.1
    have h2 : p.1 ≤ maxX (p :: ps) := le_foldl_max (fun q => q.1) ps p.1
    simp only [minX, maxX] at h1 h2 ⊢
    linarith

/-- The vertical extent of a nonempty ring is nonnegative. -/
lemma bbox_y_nonneg (ring : List Pt) (h : ring ≠ []) : 0 ≤ maxY ring - minY ring := by
  match ring, h with
  | p :: ps, _ =>
    have h1 : minY (p :: ps) ≤ p.2 := foldl_min_le (fun q => q.2) ps p.2
    have h2 : p.2 ≤ maxY (p :: ps) := le_foldl_max (fun q => q.2) ps p.2
    simp only [minY, maxY] at h1 h2 ⊢
    linarith

/-- Python truncation agrees with the floor on nonnegative rationals. -/
lemma ratTrunc_eq_floor (q : ℚ) (hq : 0 ≤ q) : ratTrunc q = ⌊q⌋ := by
  rw [Rat.floor_def]
  exact Int.tdiv_eq_ediv (Rat.num_nonneg.mpr hq) (Int.natCast_nonneg _)

/-- Python truncation of a nonnegative rational is nonnegative. -/
lemma ratTrunc_nonneg (q : ℚ) (hq : 0 ≤ q) : 0 ≤ ratTrunc q := by
  rw [ratTrunc_eq_floor q hq]
  exact Int.floor_nonneg.mpr hq

/-- Truncation of zero. -/
lemma ratTrunc_zero : ratTrunc 0 = 0 := by
  simp [ratTrunc]

/-- The grid is at least 20 cells wide for every input ring. -/
lemma twenty_le_gridW (ring : List Pt) : 20 ≤ gridW ring := by
  unfold gridW
  rcases eq_or_ne ring [] with h | h
  · subst h
    have : maxX ([] : List Pt) - minX ([] : List Pt) = 0 := by simp [maxX, minX]
    rw [this, ratTrunc_zero]
    decide
  · have := ratTrunc_nonneg _ (bbox_x_nonneg ring h)
    omega

/-- The grid is at least 20 cells tall for every input ring. -/
lemma twenty_le_gridH (ring : List Pt) : 20 ≤ gridH ring := by
  unfold gridH
  rcases eq_or_ne ring [] with h | h
  · subst h
    have : maxY ([] : List Pt) - minY ([] : List Pt) = 0 := by simp [maxY, minY]
    rw [this, ratTrunc_zero]
    decide
  · have := ratTrunc_nonneg _ (bbox_y_nonneg ring h)
    omega

/-- Every row of the distance field has the grid width as its length. -/
lemma distField_rows_length (ring : List Pt) :
    ∀ row ∈ distFieldOf ring, row.length = gridW ring := by
  unfold distFieldOf distFieldAux
  intro row hrow
  simp only [List.mem_map, List.mem_range] at hrow
  obtain ⟨r, -, rfl⟩ := hrow
  simp

/-- The flattened distance field has one entry per grid cell. -/
lemma length_flatField (ring : List Pt) :
    (flatField ring).length = gridH ring * gridW ring := by
  unfold flatField distFieldOf distFieldAux
  simp [List.length_flatten, Function.comp_def]

/-- Specification of the argmax scan: either the initial state survives and
bounds every scanned value, or the result is the first strictly improving
entry that bounds all scanned values. -/
lemma argmaxP_spec : ∀ (vs : List ℕ) (bi bv i : ℕ),
    (argmaxP vs (bi, bv) i = (bi, bv) ∧ ∀ j, j < vs.length → vs.getD j 0 ≤ bv) ∨
    (∃ k, k < vs.length ∧ argmaxP vs (bi, bv) i = (i + k, vs.getD k 0) ∧
      bv < vs.getD k 0 ∧ (∀ j, j < vs.length → vs.getD j 0 ≤ vs.getD k 0) ∧
      ∀ j, j < k → vs.getD j 0 < vs.getD k 0)
  | [], bi, bv, i => by
    left
    exact ⟨rfl, fun j hj => absurd hj (by simp)⟩
  | v :: vs, bi, bv, i => by
    by_cases hv : bv < v
    · have step : argmaxP (v :: vs) (bi, bv) i = argmaxP vs (i, v) (i + 1) := by
        simp [argmaxP, hv]
      rcases argmaxP_spec vs i v (i + 1) with ⟨heq, hb⟩ | ⟨k, hk, heq, hlt, hb, hstrict⟩
      · right
        refine ⟨0, by simp, ?_, hv, ?_, by omega⟩
        · rw [step, heq]; simp
        · intro j hj
          cases j with
          | zero => simp
          | succ j => simpa using hb j (by simpa using hj)
      · right
        refine ⟨k + 1, by simpa using hk, ?_, lt_trans hv hlt, ?_, ?_⟩
        · rw [step, heq]
          have h1 : i + 1 + k = i + (k + 1) := by omega
          rw [h1, List.getD_cons_succ]
        · intro j hj
          cases j with
          | zero => simpa using le_of_lt hlt
          | succ j => simpa using hb j (by simpa using hj)
        · intro j hj
          cases j with
          | zero => simpa using hlt
          | succ j => simpa using hstrict j (by omega)
    · have step : argmaxP (v :: vs) (bi, bv) i = argmaxP vs (bi, bv) (i + 1) := by
        simp [argmaxP, hv]
      rcases argmaxP_spec vs bi bv (i + 1) with ⟨heq, hb⟩ | ⟨k, hk, heq, hlt, hb, hstrict⟩
      · left
        refine ⟨by rw [step, heq], ?_⟩
        intro j hj
        cases j with
        | zero => simpa using le_of_not_lt hv
        | succ j => simpa using hb j (by simpa using hj)
      · right
        refine ⟨k + 1, by simpa using hk, ?_, hlt, ?_, ?_⟩
        · rw [step, heq]
          have h1 : i + 1 + k = i + (k + 1) := by omega
          rw [h1, List.getD_cons_succ]
        · intro j hj
          cases j with
          | zero =>
            have : v ≤ bv := le_of_not_lt hv
            simpa using le_trans this (le_of_lt hlt)
          | succ j => simpa using hb j (by simpa using hj)
        · intro j hj
          cases j with
          | zero => simpa using lt_of_le_of_lt (le_of_not_lt hv) hlt
          | succ j => simpa using hstrict j (by omega)

/-- Specification of the flat argmax: the returned index is valid, holds the
returned value, that value bounds every entry, and every earlier entry is
strictly below it (first occurrence in scan order). -/
lemma argmaxFlat_spec (l : List ℕ) (h : l ≠ []) :
    (argmaxFlat l).1 < l.length ∧
    l.getD (argmaxFlat l).1 0 = (argmaxFlat l).2 ∧
    (∀ j, j < l.length → l.getD j 0 ≤ (argmaxFlat l).2) ∧
    ∀ j, j < (argmaxFlat l).1 → l.getD j 0 < (argmaxFlat l).2 := by
  match l, h with
  | v :: vs, _ =>
    have hA : argmaxFlat (v :: vs) = argmaxP vs (0, v) 1 := rfl
    rcases argmaxP_spec vs 0 v 1 with ⟨heq, hb⟩ | ⟨k, hk, heq, hlt, hb, hstrict⟩
    · rw [hA, heq]
      refine ⟨by simp, by simp, ?_, by omega⟩
      intro j hj
      cases j with
      | zero => simp
      | succ j => simpa using hb j (by simpa using hj)
    · rw [hA, heq]
      have hidx : 1 + k = k + 1 := by omega
      refine ⟨?_, ?_, ?_, ?_⟩
      · show 1 + k < (v :: vs).length
        simp only [List.length_cons]
        omega
      · show (v :: vs).getD (1 + k) 0 = vs.getD k 0
        rw [hidx, List.getD_cons_succ]
      · intro j hj
        cases j with
        | zero => simpa using le_of_lt hlt
        | succ j => simpa using hb j (by simpa using hj)
      · intro j hj
        have hj2 : j < 1 + k := hj
        cases j with
        | zero => simpa using hlt
        | succ j => simpa using hstrict j (by omega)

/-- The initial value bounds a max fold from below. -/
lemma le_foldl_max_nat : ∀ (l : List ℕ) (z : ℕ), z ≤ l.foldl max z
  | [], _ => le_refl _
  | v :: vs, z => le_trans (le_max_left _ _) (le_foldl_max_nat vs (max z v))

/-- Every member bounds a max fold from below. -/
lemma mem_le_foldl_max_nat : ∀ (l : List ℕ) (z x : ℕ), x ∈ l → x ≤ l.foldl max z
  | v :: vs, z, x, hx => by
    rcases List.mem_cons.mp hx with rfl | hx
    · exact le_trans (le_max_right _ _) (le_foldl_max_nat vs (max z x))
    · exact mem_le_foldl_max_nat vs (max z v) x hx

/-- A max fold is bounded by any upper bound of the initial value and all
members. -/
lemma foldl_max_le_nat : ∀ (l : List ℕ) (z m : ℕ), z ≤ m → (∀ x ∈ l, x ≤ m) →
    l.foldl max z ≤ m
  | [], _, _, hz, _ => hz
  | v :: vs, z, m, hz, hm => by
    refine foldl_max_le_nat vs (max z v) m ?_ ?_
    · exact max_le hz (hm v (by simp))
    · exact fun x hx => hm x (by simp [hx])

/-- numpy max equals the value at the numpy argmax index. -/
lemma listMaxN_eq_argmax_val (l : List ℕ) (h : l ≠ []) :
    listMaxN l = (argmaxFlat l).2 := by
  obtain ⟨hidx, hval, hb, -⟩ := argmaxFlat_spec l h
  refine le_antisymm ?_ ?_
  · refine foldl_max_le_nat l 0 _ (Nat.zero_le _) ?_
    intro x hx
    obtain ⟨j, hj, rfl⟩ := List.getElem_of_mem hx
    have : l.getD j 0 = l[j] := List.getD_eq_getElem l 0 hj
    rw [← this]
    exact hb j hj
  · rw [← hval]
    have : l.getD (argmaxFlat l).1 0 = l[(argmaxFlat l).1] := List.getD_eq_getElem l 0 hidx
    rw [this]
    exact mem_le_foldl_max_nat l 0 _ (List.getElem_mem hidx)

/-- getD distributes over append, left part. -/
lemma getD_append_lt (l1 l2 : List ℕ) (i : ℕ) (h : i < l1.length) :
    (l1 ++ l2).getD i 0 = l1.getD i 0 := by
  simp only [List.getD_eq_getElem?_getD]
  rw [List.getElem?_append_left h]

/-- getD distributes over append, right part. -/
lemma getD_append_ge (l1 l2 : List ℕ) (i : ℕ) (h : l1.length ≤ i) :
    (l1 ++ l2).getD i 0 = l2.getD (i - l1.length) 0 := by
  simp only [List.getD_eq_getElem?_getD]
  rw [List.getElem?_append_right h]

/-- Indexing the row-major flattening of a grid with rows of uniform width w
at flat index i reads the grid cell (i / w, i % w). -/
lemma flatten_getD (w : ℕ) (hw : 0 < w) : ∀ (df : List (List ℕ)),
    (∀ row ∈ df, row.length = w) → ∀ i, i < df.length * w →
    df.flatten.getD i 0 = dfAt df (i / w, i % w)
  | [], _, i, hi => by simp at hi
  | row :: rest, hrows, i, hi => by
    have hrow : row.length = w := hrows row (by simp)
    rw [List.flatten_cons]
    by_cases hlt : i < w
    · rw [getD_append_lt _ _ _ (by omega)]
      unfold dfAt
      rw [Nat.div_eq_of_lt hlt, Nat.mod_eq_of_lt hlt]
      simp
    · have hge : w ≤ i := le_of_not_lt hlt
      rw [getD_append_ge _ _ _ (by omega), hrow]
      have hi2 : i - w < rest.length * w := by
        simp only [List.length_cons, Nat.succ_mul] at hi
        omega
      have IH := flatten_getD w hw rest (fun r hr => hrows r (by simp [hr])) (i - w) hi2
      rw [IH]
      unfold dfAt
      rw [Nat.div_eq_sub_div hw hge, Nat.mod_eq_sub_mod hge]
      simp

/-- Claim C9: place_label is deterministic.  The labeler object carries no
mutable state: a call leaves it unchanged, and a second call with identical
inputs on the returned object produces an identical result record, so two
calls with identical inputs yield bit-identical numeric results. -/
theorem place_label_deterministic (L : RiverLabeler) (coords : List Pt) (t : String)
    (fs : ℤ) :
    (place_label L coords t fs).2 = L ∧
    (place_label ((place_label L coords t fs).2) coords t fs).1 =
      (place_label L coords t fs).1 := by
  by_cases h : coords.length < 3 <;> simp [place_label, h]

/-- Claim C10: for every input ring, the occupancy grid and distance field
have width and height at least 20, the flattened distance field has one
entry per grid cell and is never empty, and the numpy argmax index into it
is always valid. -/
theorem grid_never_empty (ring : List Pt) :
    20 ≤ gridW ring ∧ 20 ≤ gridH ring ∧
    (flatField ring).length = gridH ring * gridW ring ∧
    0 < (flatField ring).length ∧
    (argmaxFlat (flatField ring)).1 < (flatField ring).length := by
  have hw := twenty_le_gridW ring
  have hh := twenty_le_gridH ring
  have hlen := length_flatField ring
  have hpos : 0 < (flatField ring).length := by
    rw [hlen]
    exact Nat.mul_pos (by omega) (by omega)
  have hne : flatField ring ≠ [] := by
    intro hcon
    rw [hcon] at hpos
    simp at hpos
  exact ⟨hw, hh, hlen, hpos, (argmaxFlat_spec _ hne).1⟩

/-- Claim C3 (amended): the grid dimensions use Python int() truncation of
the bounding box extents, which on the nonnegative extents is the floor,
not the ceiling: width = floor(maxx - minx) + 20 and
height = floor(maxy - miny) + 20. -/
theorem grid_dims_floor_plus_margin (ring : List Pt) (h : ring ≠ []) :
    (gridW ring : ℤ) = ⌊maxX ring - minX ring⌋ + 20 ∧
    (gridH ring : ℤ) = ⌊maxY ring - minY ring⌋ + 20 := by
  have hx := bbox_x_nonneg ring h
  have hy := bbox_y_nonneg ring h
  constructor
  · unfold gridW
    rw [← ratTrunc_eq_floor _ hx]
    have := ratTrunc_nonneg _ hx
    omega
  · unfold gridH
    rw [← ratTrunc_eq_floor _ hy]
    have := ratTrunc_nonneg _ hy
    omega

/-- Witness for the amended claim C3 at a concrete triangle. -/
theorem grid_dims_floor_plus_margin_witness :
    ([((0 : ℚ), (0 : ℚ)), ((21 / 2 : ℚ), (0 : ℚ)), ((5 : ℚ), (41 / 5 : ℚ))] : List Pt) ≠ [] ∧
    ((gridW [((0 : ℚ), (0 : ℚ)), ((21 / 2 : ℚ), (0 : ℚ)), ((5 : ℚ), (41 / 5 : ℚ))] : ℤ) =
        ⌊maxX [((0 : ℚ), (0 : ℚ)), ((21 / 2 : ℚ), (0 : ℚ)), ((5 : ℚ), (41 / 5 : ℚ))] -
          minX [((0 : ℚ), (0 : ℚ)), ((21 / 2 : ℚ), (0 : ℚ)), ((5 : ℚ), (41 / 5 : ℚ))]⌋ + 20 ∧
      (gridH [((0 : ℚ), (0 : ℚ)), ((21 / 2 : ℚ), (0 : ℚ)), ((5 : ℚ), (41 / 5 : ℚ))] : ℤ) =
        ⌊maxY [((0 : ℚ), (0 : ℚ)), ((21 / 2 : ℚ), (0 : ℚ)), ((5 : ℚ), (41 / 5 : ℚ))] -
          minY [((0 : ℚ), (0 : ℚ)), ((21 / 2 : ℚ), (0 : ℚ)), ((5 : ℚ), (41 / 5 : ℚ))]⌋ + 20) :=
  ⟨by simp, grid_dims_floor_plus_margin _ (by simp)⟩

/-- Counterexample to claim C3 as stated: on a triangle of fractional
extents 21/2 by 41/5 the engine builds a 30 by 28 grid, while the claimed
ceiling formula would give 31 by 29, so the dimensions differ from the
claimed ones. -/
theorem grid_dims_ceil_counterexample :
    gridW [((0 : ℚ), (0 : ℚ)), ((21 / 2 : ℚ), (0 : ℚ)), ((5 : ℚ), (41 / 5 : ℚ))] = 30 ∧
    gridH [((0 : ℚ), (0 : ℚ)), ((21 / 2 : ℚ), (0 : ℚ)), ((5 : ℚ), (41 / 5 : ℚ))] = 28 ∧
    ⌈maxX [((0 : ℚ), (0 : ℚ)), ((21 / 2 : ℚ), (0 : ℚ)), ((5 : ℚ), (41 / 5 : ℚ))] -
        minX [((0 : ℚ), (0 : ℚ)), ((21 / 2 : ℚ), (0 : ℚ)), ((5 : ℚ), (41 / 5 : ℚ))]⌉ +
      20 = (31 : ℤ) ∧
    ⌈maxY [((0 : ℚ), (0 : ℚ)), ((21 / 2 : ℚ), (0 : ℚ)), ((5 : ℚ), (41 / 5 : ℚ))] -
        minY [((0 : ℚ), (0 : ℚ)), ((21 / 2 : ℚ), (0 : ℚ)), ((5 : ℚ), (41 / 5 : ℚ))]⌉ +
      20 = (29 : ℤ) ∧
    (gridW [((0 : ℚ), (0 : ℚ)), ((21 / 2 : ℚ), (0 : ℚ)), ((5 : ℚ), (41 / 5 : ℚ))] : ℤ) ≠
      ⌈maxX [((0 : ℚ), (0 : ℚ)), ((21 / 2 : ℚ), (0 : ℚ)), ((5 : ℚ), (41 / 5 : ℚ))] -
        minX [((0 : ℚ), (0 : ℚ)), ((21 / 2 : ℚ), (0 : ℚ)), ((5 : ℚ), (41 / 5 : ℚ))]⌉ + 20 ∧
    (gridH [((0 : ℚ), (0 : ℚ)), ((21 / 2 : ℚ), (0 : ℚ)), ((5 : ℚ), (41 / 5 : ℚ))] : ℤ) ≠
      ⌈maxY [((0 : ℚ), (0 : ℚ)), ((21 / 2 : ℚ), (0 : ℚ)), ((5 : ℚ), (41 / 5 : ℚ))] -
        minY [((0 : ℚ), (0 : ℚ)), ((21 / 2 : ℚ), (0 : ℚ)), ((5 : ℚ), (41 / 5 : ℚ))]⌉ + 20 := by
  have hmx : maxX [((0 : ℚ), (0 : ℚ)), ((21 / 2 : ℚ), (0 : ℚ)), ((5 : ℚ), (41 / 5 : ℚ))] =
      21 / 2 := by
    simp [maxX]
    norm_num
  have hmn : minX [((0 : ℚ), (0 : ℚ)), ((21 / 2 : ℚ), (0 : ℚ)), ((5 : ℚ), (41 / 5 : ℚ))] =
      0 := by
    simp [minX]
    norm_num
  have hmy : maxY [((0 : ℚ), (0 : ℚ)), ((21 / 2 : ℚ), (0 : ℚ)), ((5 : ℚ), (41 / 5 : ℚ))] =
      41 / 5 := by
    simp [maxY]
    norm_num
  have hny : minY [((0 : ℚ), (0 : ℚ)), ((21 / 2 : ℚ), (0 : ℚ)), ((5 : ℚ), (41 / 5 : ℚ))] =
      0 := by
    simp [minY]
    norm_num
  have h1 : gridW [((0 : ℚ), (0 : ℚ)), ((21 / 2 : ℚ), (0 : ℚ)), ((5 : ℚ), (41 / 5 : ℚ))] =
      30 := by
    unfold gridW
    rw [hmx, hmn]
    norm_num [ratTrunc]
    decide
  have h2 : gridH [((0 : ℚ), (0 : ℚ)), ((21 / 2 : ℚ), (0 : ℚ)), ((5 : ℚ), (41 / 5 : ℚ))] =
      28 := by
    unfold gridH
    rw [hmy, hny]
    norm_num [ratTrunc]
    decide
  have h3 : ⌈maxX [((0 : ℚ), (0 : ℚ)), ((21 / 2 : ℚ), (0 : ℚ)), ((5 : ℚ), (41 / 5 : ℚ))] -
      minX [((0 : ℚ), (0 : ℚ)), ((21 / 2 : ℚ), (0 : ℚ)), ((5 : ℚ), (41 / 5 : ℚ))]⌉ +
      20 = (31 : ℤ) := by
    rw [hmx, hmn]
    have hc : (⌈(21 / 2 - 0 : ℚ)⌉ : ℤ) = 11 := by
      rw [Int.ceil_eq_iff]
      norm_num
    rw [hc]
    decide
  have h4 : ⌈maxY [((0 : ℚ), (0 : ℚ)), ((21 / 2 : ℚ), (0 : ℚ)), ((5 : ℚ), (41 / 5 : ℚ))] -
      minY [((0 : ℚ), (0 : ℚ)), ((21 / 2 : ℚ), (0 : ℚ)), ((5 : ℚ), (41 / 5 : ℚ))]⌉ +
      20 = (29 : ℤ) := by
    rw [hmy, hny]
    have hc : (⌈(41 / 5 - 0 : ℚ)⌉ : ℤ) = 9 := by
      rw [Int.ceil_eq_iff]
      norm_num
    rw [hc]
    decide
  refine ⟨h1, h2, h3, h4, ?_, ?_⟩
  · rw [h1, h3]
    decide
  · rw [h2, h4]
    decide

/-- Claim C2 (amended): with fewer than 3 coordinate pairs, place_label
returns the structured error value before any grid is built, but the core
compare_algorithms method performs no validation of its own: it raises from
the polygon constructor.  The structured error of the comparison flow is
produced by its HTTP route, which validates and returns before invoking the
core (empty input yields the no-coordinates error, 1 or 2 points yield the
need-3-points error). -/
theorem insufficient_vertices_handling (L : RiverLabeler) (coords : List Pt) (t : String)
    (fs : ℤ) (h : coords.length < 3) :
    (place_label L coords t fs).1 = .err ("Need at least 3 points") ∧
    compare_algorithms coords t fs =
      .raised ("A polygon requires at least 3 coordinate pairs") ∧
    (coords = [] →
      compare_algorithms_api coords t fs = .errJson ("No coordinates provided.") 400) ∧
    (coords ≠ [] →
      compare_algorithms_api coords t fs =
        .errJson ("Need at least 3 points to form a river polygon.") 400) := by
  refine ⟨by simp [place_label, h], by simp [compare_algorithms, h], ?_, ?_⟩
  · intro hc
    subst hc
    simp [compare_algorithms_api]
  · intro hc
    have hlen : coords.length ≠ 0 := by
      intro hcon
      exact hc (List.eq_nil_of_length_eq_zero hcon)
    simp [compare_algorithms_api, hlen, h]

/-- Witness for the amended claim C2 at a two-point input. -/
theorem insufficient_vertices_handling_witness :
    (place_label defaultLabeler [((0 : ℚ), (0 : ℚ)), ((1 : ℚ), (1 : ℚ))] ("RIVER") 24).1 =
      .err ("Need at least 3 points") ∧
    compare_algorithms [((0 : ℚ), (0 : ℚ)), ((1 : ℚ), (1 : ℚ))] ("RIVER") 24 =
      .raised ("A polygon requires at least 3 coordinate pairs") :=
  ⟨(insufficient_vertices_handling defaultLabeler _ ("RIVER") 24 (by simp)).1,
   (insufficient_vertices_handling defaultLabeler _ ("RIVER") 24 (by simp)).2.1⟩

/-- Counterexample to claim C2 as stated: on a two-point input the core
compare_algorithms method does not return any structured error result; the
exception from the polygon constructor propagates out of it (only the place
label entry point returns a structured error value itself). -/
theorem compare_algorithms_raises_on_two_points :
    compare_algorithms [((0 : ℚ), (0 : ℚ)), ((1 : ℚ), (1 : ℚ))] ("NILE") 24 =
      .raised ("A polygon requires at least 3 coordinate pairs") ∧
    ∀ r : CompareOk,
      compare_algorithms [((0 : ℚ), (0 : ℚ)), ((1 : ℚ), (1 : ℚ))] ("NILE") 24 ≠ .ok r := by
  constructor
  · simp [compare_algorithms]
  · intro r hcon
    simp [compare_algorithms] at hcon

/-- The distance field has one row per grid row. -/
lemma distField_length (ring : List Pt) : (distFieldOf ring).length = gridH ring := by
  unfold distFieldOf distFieldAux
  simp

/-- Claim C5: the max-distance strategy of find_widest_point selects the
first flat index attaining the global maximum of the distance field in
row-major scan order; writing (row, col) for its unraveling, the reported
point is (col + minx, row + miny) and the reported squared clearance is the
value of that cell, which bounds every cell of the field, every earlier
cell in scan order being strictly smaller. -/
theorem max_distance_strategy_first_row_major (p tw th : ℚ) (ring : List Pt) :
    (argmaxFlat (flatField ring)).1 < (flatField ring).length ∧
    (find_widest_point p ring tw th).maxDistSq =
      (flatField ring).getD (argmaxFlat (flatField ring)).1 0 ∧
    (∀ j, j < (flatField ring).length →
      (flatField ring).getD j 0 ≤ (flatField ring).getD (argmaxFlat (flatField ring)).1 0) ∧
    (∀ j, j < (argmaxFlat (flatField ring)).1 →
      (flatField ring).getD j 0 < (flatField ring).getD (argmaxFlat (flatField ring)).1 0) ∧
    (flatField ring).getD (argmaxFlat (flatField ring)).1 0 =
      dfAt (distFieldOf ring)
        ((argmaxFlat (flatField ring)).1 / gridW ring,
         (argmaxFlat (flatField ring)).1 % gridW ring) ∧
    (argmaxFlat (flatField ring)).1 / gridW ring < gridH ring ∧
    (argmaxFlat (flatField ring)).1 % gridW ring < gridW ring ∧
    (find_widest_point p ring tw th).optimal_x =
      (((argmaxFlat (flatField ring)).1 % gridW ring : ℕ) : ℚ) + minX ring ∧
    (find_widest_point p ring tw th).optimal_y =
      (((argmaxFlat (flatField ring)).1 / gridW ring : ℕ) : ℚ) + minY ring := by
  have hw : 0 < gridW ring := lt_of_lt_of_le (by norm_num) (twenty_le_gridW ring)
  have hh : 0 < gridH ring := lt_of_lt_of_le (by norm_num) (twenty_le_gridH ring)
  have hlen := length_flatField ring
  have hpos : 0 < (flatField ring).length := by
    rw [hlen]
    exact Nat.mul_pos hh hw
  have hne : flatField ring ≠ [] := by
    intro hcon
    rw [hcon] at hpos
    simp at hpos
  obtain ⟨hidx, hval, hb, hstrict⟩ := argmaxFlat_spec _ hne
  have hmax : (find_widest_point p ring tw th).maxDistSq = listMaxN (flatField ring) := rfl
  have hmax2 : (find_widest_point p ring tw th).maxDistSq =
      (flatField ring).getD (argmaxFlat (flatField ring)).1 0 := by
    rw [hmax, listMaxN_eq_argmax_val _ hne, hval]
  have hinmul : (argmaxFlat (flatField ring)).1 < gridH ring * gridW ring := by
    rw [← hlen]
    exact hidx
  refine ⟨hidx, hmax2, ?_, ?_, ?_, ?_, Nat.mod_lt _ hw, rfl, rfl⟩
  · intro j hj
    rw [hval]
    exact hb j hj
  · intro j hj
    rw [hval]
    exact hstrict j hj
  · have := flatten_getD (gridW ring) hw (distFieldOf ring) (distField_rows_length ring)
      (argmaxFlat (flatField ring)).1 (by rw [distField_length]; exact hinmul)
    exact this
  · exact (Nat.div_lt_iff_lt_mul hw).mpr hinmul

/-- Square root comparison bridge: on nonnegative reals the square root
preserves and reflects the order. -/
lemma sqrt_le_sqrt_iff_nn {x y : ℝ} (hx : 0 ≤ x) (hy : 0 ≤ y) :
    Real.sqrt x ≤ Real.sqrt y ↔ x ≤ y := by
  constructor
  · intro h
    have h2 := pow_le_pow_left₀ (Real.sqrt_nonneg x) h 2
    rwa [Real.sq_sqrt hx, Real.sq_sqrt hy] at h2
  · exact fun h => Real.sqrt_le_sqrt h

/-- Strict square root comparison bridge on nonnegative reals. -/
lemma sqrt_lt_sqrt_iff_nn {x y : ℝ} (hx : 0 ≤ x) (hy : 0 ≤ y) :
    Real.sqrt x < Real.sqrt y ↔ x < y := by
  constructor
  · intro h
    by_contra hc
    push_neg at hc
    exact absurd ((sqrt_le_sqrt_iff_nn hy hx).mpr hc) (not_le.mpr h)
  · exact fun h => Real.sqrt_lt_sqrt hx h

/-- Doubling a square root is the square root of four times the argument. -/
lemma two_mul_sqrt (x : ℝ) : 2 * Real.sqrt x = Real.sqrt (4 * x) := by
  rw [show (4 : ℝ) * x = 2 ^ 2 * x by ring, Real.sqrt_mul (by norm_num : (0 : ℝ) ≤ 2 ^ 2),
    Real.sqrt_sq (by norm_num : (0 : ℝ) ≤ 2)]

/-- The fit check decides exactly whether the clearance diameter
2 * sqrt s reaches the padded footprint size q. -/
lemma fitsCheck_iff (s : ℕ) (q : ℚ) :
    fitsCheck s q = true ↔ (q : ℝ) ≤ 2 * Real.sqrt (s : ℝ) := by
  unfold fitsCheck
  rw [Bool.or_eq_true, decide_eq_true_eq, decide_eq_true_eq]
  rcases le_or_lt q 0 with hq | hq
  · have hq2 : ((q : ℝ)) ≤ 0 := by exact_mod_cast hq
    have hs := Real.sqrt_nonneg ((s : ℝ))
    constructor
    · intro h1
      linarith
    · intro h1
      exact Or.inl hq
  · have hqr : (0 : ℝ) < (q : ℝ) := by exact_mod_cast hq
    have hiff : q ^ 2 ≤ 4 * (s : ℚ) ↔ (q : ℝ) ≤ 2 * Real.sqrt (s : ℝ) := by
      rw [two_mul_sqrt]
      constructor
      · intro h1
        have hcast : ((q : ℝ)) ^ 2 ≤ 4 * (s : ℝ) := by exact_mod_cast h1
        have h2 := Real.sqrt_le_sqrt hcast
        rwa [Real.sqrt_sq (le_of_lt hqr)] at h2
      · intro h1
        have h2 := pow_le_pow_left₀ (le_of_lt hqr) h1 2
        rw [Real.sq_sqrt (by positivity : (0 : ℝ) ≤ 4 * (s : ℝ))] at h2
        exact_mod_cast h2
    constructor
    · intro h1
      rcases h1 with h1 | h1
      · exact absurd h1 (not_le.mpr hq)
      · exact hiff.mp h1
    · intro h1
      exact Or.inr (hiff.mpr h1)

/-- Claim C6: for every valid place_label input the returned record is the
one of find_widest_point with padding 5, and its fits_inside flag is true
exactly when 2 * max_distance is at least max(text_width, text_height) + 5,
where text_width = len(text) * font_size * 0.6, text_height = font_size and
max_distance is the square root of the global maximum of the distance
field. -/
theorem fits_inside_criterion (coords : List Pt) (t : String) (fs : ℤ)
    (h3 : 3 ≤ coords.length) :
    (place_label defaultLabeler coords t fs).1 =
      .ok ⟨find_widest_point 5 coords (textWidthOf t fs) (fs : ℚ), t, fs, coords⟩ ∧
    (find_widest_point 5 coords (textWidthOf t fs) (fs : ℚ)).maxDistSq =
      listMaxN (flatField coords) ∧
    ((find_widest_point 5 coords (textWidthOf t fs) (fs : ℚ)).fits_inside = true ↔
      ((max (textWidthOf t fs) ((fs : ℚ)) + 5 : ℚ) : ℝ) ≤
        2 * Real.sqrt
          (((find_widest_point 5 coords (textWidthOf t fs) (fs : ℚ)).maxDistSq : ℕ) : ℝ)) := by
  have hnot : ¬(coords.length < 3) := by omega
  refine ⟨by simp [place_label, hnot, defaultLabeler], rfl, ?_⟩
  exact fitsCheck_iff _ _

/-- Witness for claim C6 at a concrete square. -/
theorem fits_inside_criterion_witness :
    3 ≤ ([((0 : ℚ), (0 : ℚ)), ((9 : ℚ), (0 : ℚ)), ((9 : ℚ), (9 : ℚ)), ((0 : ℚ), (9 : ℚ))] :
        List Pt).length ∧
    ((place_label defaultLabeler
        [((0 : ℚ), (0 : ℚ)), ((9 : ℚ), (0 : ℚ)), ((9 : ℚ), (9 : ℚ)), ((0 : ℚ), (9 : ℚ))]
        ("RIVER") 24).1 =
      .ok ⟨find_widest_point 5
            [((0 : ℚ), (0 : ℚ)), ((9 : ℚ), (0 : ℚ)), ((9 : ℚ), (9 : ℚ)), ((0 : ℚ), (9 : ℚ))]
            (textWidthOf ("RIVER") 24) ((24 : ℚ)), ("RIVER"), 24,
            [((0 : ℚ), (0 : ℚ)), ((9 : ℚ), (0 : ℚ)), ((9 : ℚ), (9 : ℚ)), ((0 : ℚ), (9 : ℚ))]⟩ ∧
      (find_widest_point 5
          [((0 : ℚ), (0 : ℚ)), ((9 : ℚ), (0 : ℚ)), ((9 : ℚ), (9 : ℚ)), ((0 : ℚ), (9 : ℚ))]
          (textWidthOf ("RIVER") 24) ((24 : ℚ))).maxDistSq =
        listMaxN (flatField
          [((0 : ℚ), (0 : ℚ)), ((9 : ℚ), (0 : ℚ)), ((9 : ℚ), (9 : ℚ)), ((0 : ℚ), (9 : ℚ))]) ∧
      ((find_widest_point 5
          [((0 : ℚ), (0 : ℚ)), ((9 : ℚ), (0 : ℚ)), ((9 : ℚ), (9 : ℚ)), ((0 : ℚ), (9 : ℚ))]
          (textWidthOf ("RIVER") 24) ((24 : ℚ))).fits_inside = true ↔
        ((max (textWidthOf ("RIVER") 24) ((24 : ℚ)) + 5 : ℚ) : ℝ) ≤
          2 * Real.sqrt
            (((find_widest_point 5
                [((0 : ℚ), (0 : ℚ)), ((9 : ℚ), (0 : ℚ)), ((9 : ℚ), (9 : ℚ)),
                  ((0 : ℚ), (9 : ℚ))]
                (textWidthOf ("RIVER") 24) ((24 : ℚ))).maxDistSq : ℕ) : ℝ))) :=
  ⟨by simp, fits_inside_criterion _ ("RIVER") 24 (by simp)⟩

/-- Ring edges of a mapped ring are the mapped ring edges. -/
lemma ringEdges_map (f : Pt → Pt) (ring : List Pt) :
    ringEdges (ring.map f) = (ringEdges ring).map (Prod.map f f) := by
  unfold ringEdges
  rw [← List.map_rotate, List.zip_map]

/-- The edge crossing test is invariant under translating the point and both
edge endpoints by the same vector. -/
lemma edgeCrosses_translate (p a b v : Pt) :
    edgeCrosses (p.1 - v.1, p.2 - v.2) (a.1 - v.1, a.2 - v.2) (b.1 - v.1, b.2 - v.2) =
      edgeCrosses p a b := by
  unfold edgeCrosses
  have e1 : decide ((p.1 - v.1, p.2 - v.2).2 < (a.1 - v.1, a.2 - v.2).2) =
      decide (p.2 < a.2) := by
    apply decide_eq_decide.mpr
    dsimp only
    constructor <;> intro h1 <;> linarith
  have e2 : decide ((p.1 - v.1, p.2 - v.2).2 < (b.1 - v.1, b.2 - v.2).2) =
      decide (p.2 < b.2) := by
    apply decide_eq_decide.mpr
    dsimp only
    constructor <;> intro h1 <;> linarith
  have e3 : decide ((p.1 - v.1, p.2 - v.2).1 <
      ((b.1 - v.1, b.2 - v.2).1 - (a.1 - v.1, a.2 - v.2).1) *
          ((p.1 - v.1, p.2 - v.2).2 - (a.1 - v.1, a.2 - v.2).2) /
          ((b.1 - v.1, b.2 - v.2).2 - (a.1 - v.1, a.2 - v.2).2) +
        (a.1 - v.1, a.2 - v.2).1) =
      decide (p.1 < (b.1 - a.1) * (p.2 - a.2) / (b.2 - a.2) + a.1) := by
    apply decide_eq_decide.mpr
    dsimp only
    have hb1 : b.1 - v.1 - (a.1 - v.1) = b.1 - a.1 := by ring
    have hp2 : p.2 - v.2 - (a.2 - v.2) = p.2 - a.2 := by ring
    have hb2 : b.2 - v.2 - (a.2 - v.2) = b.2 - a.2 := by ring
    rw [hb1, hp2, hb2]
    constructor <;> intro h1 <;> linarith
  rw [e1, e2, e3]

/-- The even-odd containment test is invariant under translating the ring
and the query point by the same vector. -/
lemma containsPoint_translate (ring : List Pt) (v p : Pt) :
    containsPoint (translateRing ring v.1 v.2) (p.1 - v.1, p.2 - v.2) =
      containsPoint ring p := by
  unfold containsPoint translateRing
  have hedges := ringEdges_map (fun q => (q.1 - v.1, q.2 - v.2)) ring
  rw [hedges, List.countP_map]
  have hfun : ((fun e => edgeCrosses (p.1 - v.1, p.2 - v.2) e.1 e.2) ∘
      Prod.map (fun q : Pt => (q.1 - v.1, q.2 - v.2)) (fun q : Pt => (q.1 - v.1, q.2 - v.2))) =
      (fun e : Pt × Pt => edgeCrosses p e.1 e.2) := by
    funext e
    show edgeCrosses (p.1 - v.1, p.2 - v.2) (e.1.1 - v.1, e.1.2 - v.2)
        (e.2.1 - v.1, e.2.2 - v.2) = edgeCrosses p e.1 e.2
    exact edgeCrosses_translate p e.1 e.2 v
  rw [hfun]

/-- Claim C8: round-trip of the rasterization offset.  For a grid cell
(r, c) and the world point (x, y) with x = c + offset_x, y = r + offset_y,
a strictly interior world point makes the occupancy grid cell true and a
strictly exterior one makes it false (strictness modulo the documented
even-odd boundary convention of the containment test). -/
theorem raster_offset_roundtrip (ring : List Pt) (r c : ℕ) (x y : ℚ)
    (hx : x = (c : ℚ) + minX ring) (hy : y = (r : ℚ) + minY ring)
    (hr : r < gridH ring) (hc : c < gridW ring) :
    (strictlyInside ring (x, y) → rasterCell ring r c = true) ∧
    (strictlyOutside ring (x, y) → rasterCell ring r c = false) := by
  have h2 : ((x, y).1 - (minX ring, minY ring).1, (x, y).2 - (minX ring, minY ring).2) =
      (((c : ℚ)), ((r : ℚ))) := by
    subst hx hy
    dsimp only
    rw [add_sub_cancel_right, add_sub_cancel_right]
  have key := containsPoint_translate ring (minX ring, minY ring) (x, y)
  rw [h2] at key
  have hcell : rasterCell ring r c = containsPoint ring (x, y) := key
  constructor
  · intro hin
    rw [hcell]
    exact hin.1
  · intro hout
    rw [hcell]
    exact hout.1

/-- Square test polygon for the rasterization round-trip. -/
def sqRing8 : List Pt := [((0 : ℚ), (0 : ℚ)), ((8 : ℚ), (0 : ℚ)), ((8 : ℚ), (8 : ℚ)),
  ((0 : ℚ), (8 : ℚ))]

/-- Witness for claim C8: the point (3, 4) lies strictly inside the square
and its grid cell (4, 3) is marked true. -/
theorem raster_offset_roundtrip_witness :
    strictlyInside sqRing8 ((3 : ℚ), (4 : ℚ)) ∧ rasterCell sqRing8 4 3 = true := by
  have hin : strictlyInside sqRing8 ((3 : ℚ), (4 : ℚ)) := by
    constructor
    · with_unfolding_all decide
    · with_unfolding_all decide
  have hmx : minX sqRing8 = 0 := by with_unfolding_all decide
  have hmy : minY sqRing8 = 0 := by with_unfolding_all decide
  have hgh : 4 < gridH sqRing8 := by with_unfolding_all decide
  have hgw : 3 < gridW sqRing8 := by with_unfolding_all decide
  refine ⟨hin, ?_⟩
  exact (raster_offset_roundtrip sqRing8 4 3 3 4 (by rw [hmx]; norm_num)
    (by rw [hmy]; norm_num) hgh hgw).1 hin

/-- With no positive distance values the weighted selection is empty. -/
lemma goodCells_empty_of_interior_empty (ring : List Pt) (h : interiorVals ring = []) :
    goodCells ring = [] := by
  unfold goodCells goodCellsAux
  have hv : (distFieldOf ring).flatten.filter (fun v => decide (0 < v)) = interiorVals ring :=
    rfl
  rw [hv, h]
  simp

/-- With an empty selection the weighted point falls back to the centroid. -/
lemma weightedPoint_eq_centroid (ring : List Pt) (h : goodCells ring = []) :
    weightedPoint ring = centroid ring := by
  unfold weightedPoint
  rw [h]
  simp

/-- Claim C7: whenever the raster has no positive-distance cell, or the
above-percentile subset is empty, the weighted strategy returns exactly the
centroid coordinates; the computation is total, so no exception or division
by zero occurs (the mean, with its division by the selection size, is only
taken on a nonempty selection). -/
theorem weighted_fallback_centroid (coords : List Pt) (t : String) (fs : ℤ)
    (h3 : 3 ≤ coords.length)
    (h : interiorVals coords = [] ∨ goodCells coords = []) :
    compare_algorithms coords t fs = .ok (compareOk coords t fs) ∧
    weightedPoint coords = centroid coords ∧
    (compareOk coords t fs).weighted.x = (centroid coords).1 ∧
    (compareOk coords t fs).weighted.y = (centroid coords).2 ∧
    (compareOk coords t fs).weighted.distSqToEdge =
      distSqToBoundary coords (centroid coords) := by
  have hgc : goodCells coords = [] := by
    rcases h with h | h
    · exact goodCells_empty_of_interior_empty coords h
    · exact h
  have hwp := weightedPoint_eq_centroid coords hgc
  have hnot : ¬(coords.length < 3) := by omega
  refine ⟨by simp [compare_algorithms, hnot], hwp, ?_, ?_, ?_⟩
  · show (weightedPoint coords).1 = (centroid coords).1
    rw [hwp]
  · show (weightedPoint coords).2 = (centroid coords).2
    rw [hwp]
  · show distSqToBoundary coords (weightedPoint coords) =
      distSqToBoundary coords (centroid coords)
    rw [hwp]

/-- Squared distances to a segment are nonnegative. -/
lemma sqDistPtSeg_nonneg (p a b : Pt) : 0 ≤ sqDistPtSeg p a b := by
  unfold sqDistPtSeg
  dsimp only
  split <;> positivity

/-- A min fold over squared segment distances from a nonnegative start stays
nonnegative. -/
lemma foldl_min_sqDist_nonneg (p : Pt) : ∀ (es : List (Pt × Pt)) (z : ℚ), 0 ≤ z →
    0 ≤ es.foldl (fun m f => min m (sqDistPtSeg p f.1 f.2)) z
  | [], _, hz => hz
  | e :: es, z, hz =>
    foldl_min_sqDist_nonneg p es _ (le_min hz (sqDistPtSeg_nonneg p e.1 e.2))

/-- The squared distance to the boundary is nonnegative. -/
lemma distSqToBoundary_nonneg (ring : List Pt) (p : Pt) : 0 ≤ distSqToBoundary ring p := by
  unfold distSqToBoundary
  split
  · exact le_refl 0
  · exact foldl_min_sqDist_nonneg p _ _ (sqDistPtSeg_nonneg _ _ _)

/-- Case analysis of the Python max winner selection: the first strategy in
the fixed order centroid, distance_transform, weighted whose key attains
the maximum wins, so ties go to the earlier strategy. -/
lemma winnerOf_cases (dc dd dw : ℚ) :
    (winnerOf dc dd dw = ("centroid") ↔ dd ≤ dc ∧ dw ≤ dc) ∧
    (winnerOf dc dd dw = ("distance_transform") ↔ dc < dd ∧ dw ≤ dd) ∧
    (winnerOf dc dd dw = ("weighted") ↔ dc < dw ∧ dd < dw) := by
  have hwc : (("weighted") : String) ≠ ("centroid") := by decide
  have hwd : (("weighted") : String) ≠ ("distance_transform") := by decide
  have hdc : (("distance_transform") : String) ≠ ("centroid") := by decide
  unfold winnerOf
  by_cases h1 : dc < dd
  · simp only [if_pos h1]
    by_cases h2 : dd < dw
    · simp only [if_pos h2]
      refine ⟨?_, ?_, ?_⟩
      · exact iff_of_false hwc (by intro hx; linarith [hx.1])
      · exact iff_of_false hwd (by intro hx; linarith [hx.2])
      · exact ⟨fun heq => ⟨by linarith, h2⟩, fun hx => by trivial⟩
    · simp only [if_neg h2]
      refine ⟨?_, ?_, ?_⟩
      · exact iff_of_false hdc (by intro hx; linarith [hx.1])
      · exact ⟨fun heq => ⟨h1, by linarith⟩, fun hx => by trivial⟩
      · exact iff_of_false (fun hx => hwd hx.symm) (by intro hx; linarith [hx.2])
  · simp only [if_neg h1]
    by_cases h2 : dc < dw
    · simp only [if_pos h2]
      refine ⟨?_, ?_, ?_⟩
      · exact iff_of_false hwc (by intro hx; linarith [hx.2])
      · exact iff_of_false hwd (by intro hx; linarith [hx.1])
      · exact ⟨fun heq => ⟨h2, by linarith⟩, fun hx => by trivial⟩
    · simp only [if_neg h2]
      refine ⟨?_, ?_, ?_⟩
      · exact ⟨fun heq => ⟨by linarith, by linarith⟩, fun hx => by trivial⟩
      · exact iff_of_false (fun hx => hdc hx.symm) (by intro hx; linarith [hx.1])
      · exact iff_of_false (fun hx => hwc hx.symm) (by intro hx; linarith [hx.1])

/-- Claim C1 (amended): the comparison winner is the strategy of maximal
distance_to_boundary, and on ties the first strategy in the fixed order
centroid, distance_transform, weighted wins (Python max returns the first
maximal element), stated on the actual square-root distances. -/
theorem winner_is_first_argmax (coords : List Pt) (t : String) (fs : ℤ)
    (h3 : 3 ≤ coords.length) :
    compare_algorithms coords t fs = .ok (compareOk coords t fs) ∧
    ((compareOk coords t fs).winner = ("centroid") ∨
      (compareOk coords t fs).winner = ("distance_transform") ∨
      (compareOk coords t fs).winner = ("weighted")) ∧
    ((compareOk coords t fs).winner = ("centroid") ↔
      Real.sqrt ((compareOk coords t fs).distance_transform.distSqToEdge : ℝ) ≤
          Real.sqrt ((compareOk coords t fs).centroid.distSqToEdge : ℝ) ∧
        Real.sqrt ((compareOk coords t fs).weighted.distSqToEdge : ℝ) ≤
          Real.sqrt ((compareOk coords t fs).centroid.distSqToEdge : ℝ)) ∧
    ((compareOk coords t fs).winner = ("distance_transform") ↔
      Real.sqrt ((compareOk coords t fs).centroid.distSqToEdge : ℝ) <
          Real.sqrt ((compareOk coords t fs).distance_transform.distSqToEdge : ℝ) ∧
        Real.sqrt ((compareOk coords t fs).weighted.distSqToEdge : ℝ) ≤
          Real.sqrt ((compareOk coords t fs).distance_transform.distSqToEdge : ℝ)) ∧
    ((compareOk coords t fs).winner = ("weighted") ↔
      Real.sqrt ((compareOk coords t fs).centroid.distSqToEdge : ℝ) <
          Real.sqrt ((compareOk coords t fs).weighted.distSqToEdge : ℝ) ∧
        Real.sqrt ((compareOk coords t fs).distance_transform.distSqToEdge : ℝ) <
          Real.sqrt ((compareOk coords t fs).weighted.distSqToEdge : ℝ)) := by
  have hdcv : (compareOk coords t fs).centroid.distSqToEdge =
      distSqToBoundary coords (centroid coords) := rfl
  have hwv : (compareOk coords t fs).weighted.distSqToEdge =
      distSqToBoundary coords (weightedPoint coords) := rfl
  have hc0 : 0 ≤ (compareOk coords t fs).centroid.distSqToEdge := by
    rw [hdcv]
    exact distSqToBoundary_nonneg _ _
  have hd0 : 0 ≤ (compareOk coords t fs).distance_transform.distSqToEdge := by
    show (0 : ℚ) ≤
      ((find_widest_point 5 coords (textWidthOf t fs) ((fs : ℚ))).maxDistSq : ℚ)
    positivity
  have hw0 : 0 ≤ (compareOk coords t fs).weighted.distSqToEdge := by
    rw [hwv]
    exact distSqToBoundary_nonneg _ _
  have hwin : (compareOk coords t fs).winner =
      winnerOf (compareOk coords t fs).centroid.distSqToEdge
        (compareOk coords t fs).distance_transform.distSqToEdge
        (compareOk coords t fs).weighted.distSqToEdge := rfl
  obtain ⟨hiffc, hiffd, hiffw⟩ := winnerOf_cases
    (compareOk coords t fs).centroid.distSqToEdge
    (compareOk coords t fs).distance_transform.distSqToEdge
    (compareOk coords t fs).weighted.distSqToEdge
  have brle : ∀ x y : ℚ, 0 ≤ x → 0 ≤ y →
      (Real.sqrt ((x : ℚ) : ℝ) ≤ Real.sqrt ((y : ℚ) : ℝ) ↔ x ≤ y) := by
    intro x y hx hy
    rw [sqrt_le_sqrt_iff_nn (show (0 : ℝ) ≤ (x : ℝ) by exact_mod_cast hx)
      (show (0 : ℝ) ≤ (y : ℝ) by exact_mod_cast hy), Rat.cast_le]
  have brlt : ∀ x y : ℚ, 0 ≤ x → 0 ≤ y →
      (Real.sqrt ((x : ℚ) : ℝ) < Real.sqrt ((y : ℚ) : ℝ) ↔ x < y) := by
    intro x y hx hy
    rw [sqrt_lt_sqrt_iff_nn (show (0 : ℝ) ≤ (x : ℝ) by exact_mod_cast hx)
      (show (0 : ℝ) ≤ (y : ℝ) by exact_mod_cast hy), Rat.cast_lt]
  have hnot : ¬(coords.length < 3) := by omega
  refine ⟨by simp [compare_algorithms, hnot], ?_, ?_, ?_, ?_⟩
  · rw [hwin]
    by_cases h1 : (compareOk coords t fs).distance_transform.distSqToEdge ≤
        (compareOk coords t fs).centroid.distSqToEdge ∧
        (compareOk coords t fs).weighted.distSqToEdge ≤
        (compareOk coords t fs).centroid.distSqToEdge
    · exact Or.inl (hiffc.mpr h1)
    by_cases h2 : (compareOk coords t fs).centroid.distSqToEdge <
        (compareOk coords t fs).distance_transform.distSqToEdge ∧
        (compareOk coords t fs).weighted.distSqToEdge ≤
        (compareOk coords t fs).distance_transform.distSqToEdge
    · exact Or.inr (Or.inl (hiffd.mpr h2))
    push_neg at h1 h2
    refine Or.inr (Or.inr (hiffw.mpr ?_))
    rcases le_or_lt (compareOk coords t fs).distance_transform.distSqToEdge
      (compareOk coords t fs).centroid.distSqToEdge with hle | hlt
    · have := h1 hle
      exact ⟨this, lt_of_le_of_lt hle this⟩
    · have := h2 hlt
      exact ⟨lt_trans hlt this, this⟩
  · rw [hwin, hiffc, ← brle _ _ hd0 hc0, ← brle _ _ hw0 hc0]
  · rw [hwin, hiffd, ← brlt _ _ hc0 hd0, ← brle _ _ hw0 hd0]
  · rw [hwin, hiffw, ← brlt _ _ hc0 hw0, ← brlt _ _ hd0 hw0]

/-- Witness for the amended claim C1: at a concrete triangle the winner is
one of the three strategies, by the winner characterization. -/
theorem winner_is_first_argmax_witness :
    (compareOk [((0 : ℚ), (0 : ℚ)), ((4 : ℚ), (0 : ℚ)), ((0 : ℚ), (4 : ℚ))] ("RIVER")
        24).winner = ("centroid") ∨
      (compareOk [((0 : ℚ), (0 : ℚ)), ((4 : ℚ), (0 : ℚ)), ((0 : ℚ), (4 : ℚ))] ("RIVER")
        24).winner = ("distance_transform") ∨
      (compareOk [((0 : ℚ), (0 : ℚ)), ((4 : ℚ), (0 : ℚ)), ((0 : ℚ), (4 : ℚ))] ("RIVER")
        24).winner = ("weighted") :=
  (winner_is_first_argmax _ ("RIVER") 24 (by simp)).2.1

/-- A leading zero does not change the numpy max. -/
lemma listMaxN_cons_zero (l : List ℕ) : listMaxN (0 :: l) = listMaxN l := rfl

/-- The numpy max of an all-zero list is zero. -/
lemma listMaxN_replicate_zero : ∀ n : ℕ, listMaxN (List.replicate n 0) = 0
  | 0 => rfl
  | n + 1 => by
    rw [List.replicate_succ, listMaxN_cons_zero]
    exact listMaxN_replicate_zero n

/-- A sliver triangle of positive area whose closed region contains no
lattice point at all (its y range is [0, 4/5] and its only boundary point
with integer y is the non-lattice vertex (3/2, 0)), so under any boundary
convention of the containment test the raster is all false, the distance
field is identically zero, and the weighted strategy falls back to the
centroid, producing an exact tie with the centroid strategy. -/
def sliverA : List Pt :=
  [((0 : ℚ), (1 / 2 : ℚ)), ((3 / 2 : ℚ), (0 : ℚ)), ((1 / 2 : ℚ), (4 / 5 : ℚ))]

/-- Counterexample to the tie-breaking direction of claim C1: on the sliver
triangle the weighted and centroid strategies tie on the exact maximal
distance_to_boundary (the max-distance strategy reports 0), yet the code
selects centroid, not the claimed higher-priority weighted strategy. -/
theorem winner_tie_prefers_centroid :
    compare_algorithms sliverA ("RIVER") 24 = .ok (compareOk sliverA ("RIVER") 24) ∧
    (compareOk sliverA ("RIVER") 24).weighted.distSqToEdge =
      (compareOk sliverA ("RIVER") 24).centroid.distSqToEdge ∧
    (compareOk sliverA ("RIVER") 24).distance_transform.distSqToEdge ≤
      (compareOk sliverA ("RIVER") 24).centroid.distSqToEdge ∧
    (compareOk sliverA ("RIVER") 24).winner = ("centroid") ∧
    (compareOk sliverA ("RIVER") 24).winner ≠ ("weighted") := by
  have hgc : goodCells sliverA = [] := by with_unfolding_all decide
  have hwp : weightedPoint sliverA = centroid sliverA := weightedPoint_eq_centroid _ hgc
  have hdf : distFieldOf sliverA = List.replicate 20 (List.replicate 21 0) := by
    with_unfolding_all decide
  have hflat : flatField sliverA = List.replicate 420 0 := by
    show (distFieldOf sliverA).flatten = List.replicate 420 0
    rw [hdf]
    with_unfolding_all decide
  have hmax : listMaxN (flatField sliverA) = 0 := by
    rw [hflat]
    exact listMaxN_replicate_zero 420
  have hceq : (compareOk sliverA ("RIVER") 24).centroid.distSqToEdge =
      distSqToBoundary sliverA (centroid sliverA) := rfl
  have hweq : (compareOk sliverA ("RIVER") 24).weighted.distSqToEdge =
      distSqToBoundary sliverA (weightedPoint sliverA) := rfl
  have hdteq : (compareOk sliverA ("RIVER") 24).distance_transform.distSqToEdge =
      ((listMaxN (flatField sliverA) : ℕ) : ℚ) := rfl
  have hcnn : 0 ≤ distSqToBoundary sliverA (centroid sliverA) :=
    distSqToBoundary_nonneg _ _
  have hwinner : (compareOk sliverA ("RIVER") 24).winner =
      winnerOf (distSqToBoundary sliverA (centroid sliverA))
        ((listMaxN (flatField sliverA) : ℕ) : ℚ)
        (distSqToBoundary sliverA (weightedPoint sliverA)) := rfl
  have hwc : (compareOk sliverA ("RIVER") 24).winner = ("centroid") := by
    rw [hwinner, hwp, hmax]
    rw [show (((0 : ℕ) : ℚ)) = (0 : ℚ) from rfl]
    exact (winnerOf_cases _ _ _).1.mpr ⟨hcnn, le_refl _⟩
  refine ⟨by simp [compare_algorithms, sliverA], ?_, ?_, hwc, ?_⟩
  · rw [hweq, hceq, hwp]
  · rw [hdteq, hceq, hmax]
    exact_mod_cast hcnn
  · rw [hwc]
    decide

/-- Triangle of positive area whose closed region contains no lattice
point, so the raster interior is empty, for the weighted fallback. -/
def sliverB : List Pt :=
  [((0 : ℚ), (1 / 2 : ℚ)), ((5 / 2 : ℚ), (0 : ℚ)), ((1 / 2 : ℚ), (3 / 4 : ℚ))]

/-- Witness for claim C7: the sliver triangle has no positive-distance
raster cell and the weighted strategy outputs the centroid coordinates. -/
theorem weighted_fallback_centroid_witness :
    (interiorVals sliverB = [] ∨ goodCells sliverB = []) ∧
    weightedPoint sliverB = centroid sliverB := by
  have hI : interiorVals sliverB = [] := by with_unfolding_all decide
  exact ⟨Or.inl hI,
    (weighted_fallback_centroid sliverB ("RIVER") 24 (by decide) (Or.inl hI)).2.1⟩

/-- The integer test gtHalfSumSqrt decides the real comparison
(sqrt a + sqrt b) / 2 < sqrt s exactly. -/
lemma gtHalfSumSqrt_iff (s a b : ℕ) :
    gtHalfSumSqrt s a b = true ↔
      (Real.sqrt (a : ℝ) + Real.sqrt (b : ℝ)) / 2 < Real.sqrt (s : ℝ) := by
  unfold gtHalfSumSqrt
  rw [Bool.and_eq_true, decide_eq_true_eq, decide_eq_true_eq]
  have hA : Real.sqrt (a : ℝ) ^ 2 = (a : ℝ) := Real.sq_sqrt (by positivity)
  have hB : Real.sqrt (b : ℝ) ^ 2 = (b : ℝ) := Real.sq_sqrt (by positivity)
  have hS : Real.sqrt (s : ℝ) ^ 2 = (s : ℝ) := Real.sq_sqrt (by positivity)
  have hab : Real.sqrt (a : ℝ) * Real.sqrt (b : ℝ) = Real.sqrt ((a : ℝ) * b) :=
    (Real.sqrt_mul (by positivity) _).symm
  have hsum_sq : (Real.sqrt (a : ℝ) + Real.sqrt (b : ℝ)) ^ 2 =
      (a : ℝ) + b + 2 * Real.sqrt ((a : ℝ) * b) := by
    have hx : (Real.sqrt (a : ℝ) + Real.sqrt (b : ℝ)) ^ 2 =
        Real.sqrt (a : ℝ) ^ 2 + 2 * (Real.sqrt (a : ℝ) * Real.sqrt (b : ℝ)) +
          Real.sqrt (b : ℝ) ^ 2 := by ring
    rw [hx, hA, hB, hab]
    ring
  have htwo_sq : (2 * Real.sqrt (s : ℝ)) ^ 2 = 4 * (s : ℝ) := by
    have hx : (2 * Real.sqrt (s : ℝ)) ^ 2 = 4 * Real.sqrt (s : ℝ) ^ 2 := by ring
    rw [hx, hS]
  have hsqab : Real.sqrt (4 * ((a : ℝ) * b)) = 2 * Real.sqrt ((a : ℝ) * b) := by
    rw [show (4 : ℝ) * ((a : ℝ) * b) = 2 ^ 2 * ((a : ℝ) * b) by ring,
      Real.sqrt_mul (by norm_num : (0 : ℝ) ≤ 2 ^ 2),
      Real.sqrt_sq (by norm_num : (0 : ℝ) ≤ 2)]
  constructor
  · rintro ⟨h1, h2⟩
    have hcast1 : (a : ℝ) + b < 4 * s := by exact_mod_cast h1
    have hpos : (0 : ℝ) < 4 * (s : ℝ) - a - b := by linarith
    have h2r : 4 * ((a : ℝ) * b) < (4 * (s : ℝ) - a - b) ^ 2 := by exact_mod_cast h2
    have hstep : Real.sqrt (4 * ((a : ℝ) * b)) < 4 * (s : ℝ) - a - b := by
      rw [show 4 * (s : ℝ) - a - b = Real.sqrt ((4 * (s : ℝ) - a - b) ^ 2) from
        (Real.sqrt_sq hpos.le).symm]
      exact Real.sqrt_lt_sqrt (by positivity) h2r
    rw [hsqab] at hstep
    have hsum_lt : (Real.sqrt (a : ℝ) + Real.sqrt (b : ℝ)) ^ 2 <
        (2 * Real.sqrt (s : ℝ)) ^ 2 := by
      rw [hsum_sq, htwo_sq]
      linarith
    have hlt : Real.sqrt (a : ℝ) + Real.sqrt (b : ℝ) < 2 * Real.sqrt (s : ℝ) :=
      lt_of_pow_lt_pow_left₀ 2 (by positivity) hsum_lt
    linarith
  · intro h
    rw [div_lt_iff (by norm_num : (0 : ℝ) < 2)] at h
    have hlt : Real.sqrt (a : ℝ) + Real.sqrt (b : ℝ) < 2 * Real.sqrt (s : ℝ) := by
      linarith
    have hsum_lt : (Real.sqrt (a : ℝ) + Real.sqrt (b : ℝ)) ^ 2 <
        (2 * Real.sqrt (s : ℝ)) ^ 2 :=
      pow_lt_pow_left₀ hlt (by positivity) (by norm_num)
    rw [hsum_sq, htwo_sq] at hsum_lt
    have hsqab_nn : (0 : ℝ) ≤ Real.sqrt ((a : ℝ) * b) := Real.sqrt_nonneg _
    constructor
    · exact_mod_cast show (a : ℝ) + b < 4 * s by linarith
    · have hgap : 2 * Real.sqrt ((a : ℝ) * b) < 4 * (s : ℝ) - a - b := by linarith
      have hgap_pos : (0 : ℝ) < 4 * (s : ℝ) - a - b := by linarith
      have hsq : (2 * Real.sqrt ((a : ℝ) * b)) ^ 2 < (4 * (s : ℝ) - a - b) ^ 2 :=
        pow_lt_pow_left₀ hgap (by positivity) (by norm_num)
      have hval : (2 * Real.sqrt ((a : ℝ) * b)) ^ 2 = 4 * ((a : ℝ) * b) := by
        have hx : (2 * Real.sqrt ((a : ℝ) * b)) ^ 2 = 4 * Real.sqrt ((a : ℝ) * b) ^ 2 := by
          ring
        rw [hx, Real.sq_sqrt (by positivity)]
      rw [hval] at hsq
      exact_mod_cast hsq

/-- With at least one positive distance value, the weighted selection is
the filter of all grid cells by the exact above-percentile test. -/
lemma goodCells_eq_filter (ring : List Pt) (h1 : interiorVals ring ≠ []) :
    goodCells ring = (cellList (gridH ring) (gridW ring)).filter
      (fun rc => gtHalfSumSqrt (dfAt (distFieldOf ring) rc)
        (percentile50Sq (interiorVals ring)).1 (percentile50Sq (interiorVals ring)).2) := by
  simp only [goodCells, goodCellsAux]
  have hlen : 0 < ((distFieldOf ring).flatten.filter (fun v => decide (0 < v))).length :=
    List.length_pos.mpr h1
  rw [if_pos hlen]
  rfl

/-- Membership in the weighted selection characterized by the real
percentile threshold: exactly the cells whose distance strictly exceeds
the 50th percentile of the positive distances. -/
lemma goodCells_mem_iff (ring : List Pt) (h1 : interiorVals ring ≠ []) (rc : ℕ × ℕ) :
    rc ∈ goodCells ring ↔ rc ∈ cellList (gridH ring) (gridW ring) ∧
      (Real.sqrt ((percentile50Sq (interiorVals ring)).1 : ℝ) +
        Real.sqrt ((percentile50Sq (interiorVals ring)).2 : ℝ)) / 2 <
        Real.sqrt ((dfAt (distFieldOf ring) rc : ℕ) : ℝ) := by
  rw [goodCells_eq_filter ring h1, List.mem_filter]
  exact and_congr_right (fun _ => gtHalfSumSqrt_iff _ _ _)

/-- With a nonempty selection the weighted point is the mean of the column
and row positions mapped to world coordinates. -/
lemma weightedPoint_mean (ring : List Pt) (h2 : goodCells ring ≠ []) :
    weightedPoint ring =
      (((goodCells ring).map (fun rc => (rc.2 : ℚ))).sum / ((goodCells ring).length : ℚ) +
        minX ring,
       ((goodCells ring).map (fun rc => (rc.1 : ℚ))).sum / ((goodCells ring).length : ℚ) +
        minY ring) := by
  simp only [weightedPoint]
  rw [if_pos (List.length_pos.mpr h2)]

/-- Claim C4: for a raster with a positive-distance cell and a nonempty
above-percentile subset, the weighted strategy outputs the mean of the
(col, row) positions of exactly the cells whose distance strictly exceeds
the 50th percentile of the positive distances, mapped to world coordinates
by adding (minx, miny), and its distance_to_boundary is recomputed
geometrically as the squared-exact point-to-boundary minimum at that point,
not read from the raster. -/
theorem weighted_interior_strategy (coords : List Pt) (t : String) (fs : ℤ)
    (h3 : 3 ≤ coords.length) (h1 : interiorVals coords ≠ []) (h2 : goodCells coords ≠ []) :
    compare_algorithms coords t fs = .ok (compareOk coords t fs) ∧
    (∀ rc : ℕ × ℕ, rc ∈ goodCells coords ↔ rc ∈ cellList (gridH coords) (gridW coords) ∧
      (Real.sqrt ((percentile50Sq (interiorVals coords)).1 : ℝ) +
        Real.sqrt ((percentile50Sq (interiorVals coords)).2 : ℝ)) / 2 <
        Real.sqrt ((dfAt (distFieldOf coords) rc : ℕ) : ℝ)) ∧
    (compareOk coords t fs).weighted.x =
      ((goodCells coords).map (fun rc => (rc.2 : ℚ))).sum / ((goodCells coords).length : ℚ) +
        minX coords ∧
    (compareOk coords t fs).weighted.y =
      ((goodCells coords).map (fun rc => (rc.1 : ℚ))).sum / ((goodCells coords).length : ℚ) +
        minY coords ∧
    (compareOk coords t fs).weighted.distSqToEdge =
      distSqToBoundary coords (weightedPoint coords) := by
  have hnot : ¬(coords.length < 3) := by omega
  have hmean := weightedPoint_mean coords h2
  refine ⟨by simp [compare_algorithms, hnot], goodCells_mem_iff coords h1, ?_, ?_, rfl⟩
  · show (weightedPoint coords).1 = _
    rw [hmean]
  · show (weightedPoint coords).2 = _
    rw [hmean]

/-- Small square with interior raster cells, for the weighted strategy. -/
def sqRing3 : List Pt := [((0 : ℚ), (0 : ℚ)), ((3 : ℚ), (0 : ℚ)), ((3 : ℚ), (3 : ℚ)),
  ((0 : ℚ), (3 : ℚ))]

/-- Witness for claim C4 at a concrete square with a nonempty
above-percentile selection. -/
theorem weighted_interior_strategy_witness :
    (compareOk sqRing3 ("RIVER") 24).weighted.x =
      ((goodCells sqRing3).map (fun rc => (rc.2 : ℚ))).sum /
          ((goodCells sqRing3).length : ℚ) + minX sqRing3 ∧
    (compareOk sqRing3 ("RIVER") 24).weighted.y =
      ((goodCells sqRing3).map (fun rc => (rc.1 : ℚ))).sum /
          ((goodCells sqRing3).length : ℚ) + minY sqRing3 := by
  have hI : interiorVals sqRing3 ≠ [] := by with_unfolding_all decide
  have hG : goodCells sqRing3 ≠ [] := by with_unfolding_all decide
  have hmain := weighted_interior_strategy sqRing3 ("RIVER") 24 (by decide) hI hG
  exact ⟨hmain.2.2.1, hmain.2.2.2.1⟩
